import Mathlib

/-!
Verification of the vote-webhook decoding core of the `topgg` Rust crate
(`src/webhook/vote.rs`): the `Vote` payload decoder, the query-string
sub-parser, and `IncomingVote::authenticate`.

The embedding is shallow: Rust strings become Lean `String` / `List Char`,
bytes become `Nat` (each < 256), the serde map-deserialization of the
`Vote` struct becomes an explicit fold over the payload's field list, and
fallible decoding returns `Except DecodeError`.
-/

namespace Topgg

/-! ## Bytes and percent-decoding

`urlencoding::decode` (the crate used at `vote.rs` line 55) percent-decodes
the UTF-8 bytes of its input and then re-validates the result as UTF-8,
failing exactly when the decoded bytes are not valid UTF-8.  Malformed
percent escapes are passed through verbatim, never an error. -/

/-- Hex digit value accepted by `urlencoding`'s `from_hex_digit`:
`0`-`9`, `A`-`F`, `a`-`f`. -/
def hexVal? (b : Nat) : Option Nat :=
  if 48 ≤ b ∧ b ≤ 57 then some (b - 48)
  else if 65 ≤ b ∧ b ≤ 70 then some (b - 55)
  else if 97 ≤ b ∧ b ≤ 102 then some (b - 87)
  else none

/-- Byte-level percent decoding, mirroring `urlencoding::decode_binary`:
`%XY` with two hex digits becomes one byte; a `%` not followed by two hex
digits is emitted literally (together with a hex first digit, when only the
second digit is bad). -/
def percentDecodeBytes : List Nat → List Nat
  | [] => []
  | 37 :: rest =>
    match rest with
    | a :: b :: tail =>
      match hexVal? a, hexVal? b with
      | some x, some y => (16 * x + y) :: percentDecodeBytes tail
      | some _, none => 37 :: a :: percentDecodeBytes (b :: tail)
      | none, _ => 37 :: percentDecodeBytes (a :: b :: tail)
    | _ => 37 :: rest
  | c :: rest => c :: percentDecodeBytes rest

/-- UTF-8 encoding of one scalar value (Rust `str` bytes). -/
def utf8EncodeChar (c : Char) : List Nat :=
  let n := c.toNat
  if n < 0x80 then [n]
  else if n < 0x800 then [0xC0 + n / 64, 0x80 + n % 64]
  else if n < 0x10000 then
    [0xE0 + n / 4096, 0x80 + n / 64 % 64, 0x80 + n % 64]
  else
    [0xF0 + n / 262144, 0x80 + n / 4096 % 64, 0x80 + n / 64 % 64, 0x80 + n % 64]

/-- UTF-8 encoding of a string (as Rust's `str::as_bytes`). -/
def utf8Encode (s : List Char) : List Nat :=
  (s.map utf8EncodeChar).flatten

/-- Is `b` a UTF-8 continuation byte (`0x80`-`0xBF`)? -/
def isCont (b : Nat) : Bool := decide (0x80 ≤ b ∧ b < 0xC0)

/-- Strict UTF-8 decoding with full validation (as Rust's
`String::from_utf8`): rejects stray continuation bytes, truncated or
overlong sequences, surrogates and values above `0x10FFFF`. -/
def utf8Decode? : List Nat → Option (List Char)
  | [] => some []
  | b :: rest =>
    if b < 0x80 then (utf8Decode? rest).map (Char.ofNat b :: ·)
    else if b < 0xC0 then none
    else if b < 0xE0 then
      match rest with
      | b1 :: rest1 =>
        if isCont b1 then
          let n := (b - 0xC0) * 64 + (b1 - 0x80)
          if n < 0x80 then none else (utf8Decode? rest1).map (Char.ofNat n :: ·)
        else none
      | _ => none
    else if b < 0xF0 then
      match rest with
      | b1 :: b2 :: rest1 =>
        if isCont b1 && isCont b2 then
          let n := (b - 0xE0) * 4096 + (b1 - 0x80) * 64 + (b2 - 0x80)
          if n < 0x800 then none
          else if 0xD800 ≤ n ∧ n < 0xE000 then none
          else (utf8Decode? rest1).map (Char.ofNat n :: ·)
        else none
      | _ => none
    else if b < 0xF5 then
      match rest with
      | b1 :: b2 :: b3 :: rest1 =>
        if isCont b1 && isCont b2 && isCont b3 then
          let n := (b - 0xF0) * 262144 + (b1 - 0x80) * 4096 +
            (b2 - 0x80) * 64 + (b3 - 0x80)
          if n < 0x10000 then none
          else if 0x10FFFF < n then none
          else (utf8Decode? rest1).map (Char.ofNat n :: ·)
        else none
      | _ => none
    else none

/-- `urlencoding::decode` on a well-formed string: percent-decode the UTF-8
bytes, then re-validate; `none` is the `FromUtf8Error` case. -/
def urldecode? (v : List Char) : Option (List Char) :=
  utf8Decode? (percentDecodeBytes (utf8Encode v))

/-! ## Splitting

Rust's `str::split(c)` on a `char` pattern: the list of (possibly empty)
segments between occurrences of `c`; the empty string yields `[""]`. -/

/-- Rust `str::split` specialized to a one-`char` separator. -/
def splitOnChar (sep : Char) : List Char → List (List Char)
  | [] => [[]]
  | c :: rest =>
    if c = sep then [] :: splitOnChar sep rest
    else
      match splitOnChar sep rest with
      | r :: rs => (c :: r) :: rs
      | [] => [[c]]

/-! ## The query map

`HashMap<String, String>` with `insert` overwriting the value stored for an
existing key.  We model it as an association list whose keys are unique,
with in-place overwrite: the claims are stated through `qfind` so that the
list order never stands in for hash-map order. -/

/-- Association-list model of `HashMap<String, String>`. -/
abbrev QMap := List (String × String)

/-- `HashMap::insert`: overwrite the binding of an existing key in place,
otherwise append the new binding. -/
def qinsert (k v : String) : QMap → QMap
  | [] => [(k, v)]
  | (k1, v1) :: rest =>
    if k1 = k then (k, v) :: rest else (k1, v1) :: qinsert k v rest

/-- `HashMap::get`: the value bound to `k`, if any. -/
def qfind (k : String) : QMap → Option String
  | [] => none
  | (k1, v1) :: rest => if k1 = k then some v1 else qfind k rest

/-- One iteration of the `for` loop in `deserialize_query_string`
(`vote.rs` lines 53-58): split the candidate on `=`, take the first two
components as key and value (`it.next()` twice), skip the candidate when
there is no `=` or when the value fails percent-decoding, and otherwise
insert the verbatim key with the decoded value. -/
def processCandidate (m : QMap) (pair : List Char) : QMap :=
  match splitOnChar '=' pair with
  | k :: v :: _ =>
    match urldecode? v with
    | some v2 => qinsert (String.mk k) (String.mk v2) m
    | none => m
  | _ => m

/-- The whole query-string sub-parser body applied to a decoded string
(`vote.rs` lines 51-61): split on `&` and fold the loop body over the
candidates, starting from the empty map. -/
def parseQueryString (s : String) : QMap :=
  (splitOnChar '&' s.data).foldl processCandidate []

-- Sanity checks against the spec's concrete examples (kept as examples,
-- not used by any claim theorem).
example : parseQueryString "a=1&bogus&c=3" = [("a", "1"), ("c", "3")] := by decide
example : parseQueryString "a=1&b=hello%20world" = [("a", "1"), ("b", "hello world")] := by decide
example : parseQueryString "x=1&x=2" = [("x", "2")] := by decide
example : parseQueryString "a=b=c" = [("a", "b")] := by decide
example : urldecode? ['%', 'F', 'F'] = none := by decide

/-! ## The wire payload and the serde field deserializers

The webhook body is a self-describing map of named fields.  `WireValue` is
the value universe the claims need (strings, booleans, plus a number and a
null so that "wrong wire type" is expressible); a payload is the ordered
list of its `(name, value)` entries, the order in which serde's
`visit_map` sees them. -/

/-- A wire value of the self-describing payload format. -/
inductive WireValue where
  | str (s : String)
  | bool (b : Bool)
  | num (n : Nat)
  | null
deriving DecidableEq

/-- Decode errors, following the spec's taxonomy: `MalformedPayload` for a
shape mismatch (wrong value type, missing or duplicate field),
`InvalidId` for an ID string that does not parse as a `u64`. -/
inductive DecodeError where
  | MalformedPayload
  | InvalidId
deriving DecidableEq

/-- `String::deserialize`: succeeds exactly on a string wire value. -/
def stringDeserialize : WireValue → Except DecodeError String
  | .str s => .ok s
  | _ => .error .MalformedPayload

/-- `bool::deserialize`: succeeds exactly on a boolean wire value. -/
def boolDeserialize : WireValue → Except DecodeError Bool
  | .bool b => .ok b
  | _ => .error .MalformedPayload

/-- `deserialize_is_test` (`vote.rs` lines 37-42):
`String::deserialize(deserializer).map(|s| s == "test")`. -/
def deserialize_is_test (w : WireValue) : Except DecodeError Bool :=
  (stringDeserialize w).map (fun s => s == "test")

/-- `deserialize_query_string` (`vote.rs` lines 44-65): deserialize a
string, parse it with the sub-parser, and turn any string-deserialization
error into the default (empty) map via `unwrap_or_default`; the result is
always `Ok`. -/
def deserialize_query_string (w : WireValue) : Except DecodeError QMap :=
  .ok (match (stringDeserialize w).map parseQueryString with
    | .ok m => m
    | .error _ => [])

/-- Modelled from the spec: `snowflake::deserialize` lives in the crate's
`snowflake` module, which is not part of the sources under review; the spec
says "decode its string value as an unsigned 64-bit integer; fail with
`InvalidId` if not parseable".  A numeric string is a nonempty run of
ASCII digits whose value fits in 64 bits. -/
def parseU64? (s : List Char) : Option Nat :=
  if s = [] then none
  else if s.all Char.isDigit then
    let n := s.foldl (fun acc c => acc * 10 + (c.toNat - 48)) 0
    if n < 2 ^ 64 then some n else none
  else none

/-- Modelled from the spec: the `snowflake::deserialize` helper — a string
wire value parsed as a `u64`, `InvalidId` when unparseable, and the usual
shape error when the wire value is not a string at all. -/
def snowflake_deserialize (w : WireValue) : Except DecodeError Nat :=
  match stringDeserialize w with
  | .ok s =>
    match parseU64? s.data with
    | some n => .ok n
    | none => .error .InvalidId
  | .error e => .error e

/-! ## The `Vote` struct and its derived deserializer

`#[derive(Deserialize)]` on `Vote` generates a `visit_map` loop: each key
is classified into one of the struct's logical fields (or ignored), the
value is decoded with that field's deserializer, a field seen twice is a
duplicate-field error, and at the end the required fields must be present
while `is_weekend` and `query` fall back to their defaults. -/

/-- The decoded vote record (`vote.rs` lines 9-34). -/
structure Vote where
  receiver_id : Nat
  voter_id : Nat
  is_test : Bool
  is_weekend : Bool
  query : QMap
deriving DecidableEq

/-- The logical field a wire key is matched to by the derived
deserializer's field matcher. -/
inductive FieldKind where
  | receiver
  | voter
  | ftype
  | weekend
  | fquery
  | unknown
deriving DecidableEq

/-- The derived field matcher: `receiver_id` also accepts its serde
aliases `bot` and `guild`; `voter_id` is renamed to `user`; `is_test` is
renamed to `type`; `is_weekend` is renamed to `isWeekend`; unknown keys
are ignored. -/
def classify (k : String) : FieldKind :=
  if k = "receiver_id" ∨ k = "bot" ∨ k = "guild" then .receiver
  else if k = "user" then .voter
  else if k = "type" then .ftype
  else if k = "isWeekend" then .weekend
  else if k = "query" then .fquery
  else .unknown

/-- The partially filled state of the `visit_map` loop: each logical field
is `none` until its wire entry has been seen. -/
structure DecState where
  receiver : Option Nat
  voter : Option Nat
  isTest : Option Bool
  isWeekend : Option Bool
  query : Option QMap
deriving DecidableEq

/-- The state before any entry is processed. -/
def initState : DecState := ⟨none, none, none, none, none⟩

/-- One step of the `visit_map` loop for a key already classified: fail on
a duplicate field, decode the value with the field's deserializer, ignore
unknown keys. -/
def procField (st : DecState) (fk : FieldKind) (w : WireValue) : Except DecodeError DecState :=
  match fk with
  | .receiver =>
    match st.receiver with
    | some _ => .error .MalformedPayload
    | none =>
      match snowflake_deserialize w with
      | .ok n => .ok { st with receiver := some n }
      | .error e => .error e
  | .voter =>
    match st.voter with
    | some _ => .error .MalformedPayload
    | none =>
      match snowflake_deserialize w with
      | .ok n => .ok { st with voter := some n }
      | .error e => .error e
  | .ftype =>
    match st.isTest with
    | some _ => .error .MalformedPayload
    | none =>
      match deserialize_is_test w with
      | .ok b => .ok { st with isTest := some b }
      | .error e => .error e
  | .weekend =>
    match st.isWeekend with
    | some _ => .error .MalformedPayload
    | none =>
      match boolDeserialize w with
      | .ok b => .ok { st with isWeekend := some b }
      | .error e => .error e
  | .fquery =>
    match st.query with
    | some _ => .error .MalformedPayload
    | none =>
      match deserialize_query_string w with
      | .ok m => .ok { st with query := some m }
      | .error e => .error e
  | .unknown => .ok st

/-- One step of the `visit_map` loop on one `(key, value)` entry. -/
def procEntry (st : DecState) (kv : String × WireValue) : Except DecodeError DecState :=
  procField st (classify kv.1) kv.2

/-- The `visit_map` loop over the payload's entries in order, stopping at
the first error. -/
def runEntries (st : DecState) : List (String × WireValue) → Except DecodeError DecState
  | [] => .ok st
  | e :: rest =>
    match procEntry st e with
    | .ok st1 => runEntries st1 rest
    | .error err => .error err

/-- The end of the derived deserializer: the three required fields must
have been seen; `is_weekend` defaults to `false` and `query` to the empty
map (`#[serde(default)]`). -/
def finishDecode (st : DecState) : Except DecodeError Vote :=
  match st.receiver, st.voter, st.isTest with
  | some r, some u, some t =>
    .ok { receiver_id := r, voter_id := u, is_test := t,
          is_weekend := st.isWeekend.getD false, query := st.query.getD [] }
  | _, _, _ => .error .MalformedPayload

/-- Deserializing a whole `Vote` from a payload's entry list. -/
def decodeVote (payload : List (String × WireValue)) : Except DecodeError Vote :=
  match runEntries initState payload with
  | .ok st => finishDecode st
  | .error e => .error e

/-! ## `IncomingVote` and authentication (`vote.rs` lines 73-93) -/

/-- An unauthenticated request pairing the presented `Authorization`
credential with the decoded vote. -/
structure IncomingVote where
  authorization : String
  vote : Vote
deriving DecidableEq

/-- `IncomingVote::authenticate`: exact string equality of the presented
credential with the expected password; equal gives the wrapped vote,
anything else gives `None`. -/
def IncomingVote.authenticate (self : IncomingVote) (password : String) : Option Vote :=
  if self.authorization = password then some self.vote else none

/-! ## Helper lemmas: splitting and the query map -/

theorem splitOnChar_eq_single {sep : Char} :
    ∀ {l : List Char}, sep ∉ l → splitOnChar sep l = [l]
  | [], _ => rfl
  | c :: rest, h => by
    have hc : ¬c = sep := fun hh => h (hh ▸ List.mem_cons_self c rest)
    have ih := splitOnChar_eq_single (l := rest) (fun hm => h (List.mem_cons_of_mem c hm))
    simp [splitOnChar, hc, ih]

theorem splitOnChar_append {sep : Char} :
    ∀ {k : List Char} (rest : List Char), sep ∉ k →
      splitOnChar sep (k ++ sep :: rest) = k :: splitOnChar sep rest
  | [], rest, _ => by simp [splitOnChar]
  | c :: k, rest, h => by
    have hc : ¬c = sep := fun hh => h (hh ▸ List.mem_cons_self c k)
    have ih := splitOnChar_append (k := k) rest (fun hm => h (List.mem_cons_of_mem c hm))
    simp [splitOnChar, hc, ih]

theorem qfind_qinsert_self (k v : String) :
    ∀ m : QMap, qfind k (qinsert k v m) = some v := by
  intro m
  induction m with
  | nil => simp [qinsert, qfind]
  | cons e rest ih =>
    obtain ⟨k1, v1⟩ := e
    by_cases h : k1 = k
    · simp [qinsert, qfind, h]
    · simp [qinsert, qfind, h, ih]

theorem qfind_qinsert_other {k k2 : String} (v : String) (hne : k2 ≠ k) :
    ∀ m : QMap, qfind k2 (qinsert k v m) = qfind k2 m := by
  intro m
  induction m with
  | nil =>
    have hne2 : ¬k = k2 := fun h => hne h.symm
    simp [qinsert, qfind, hne2]
  | cons e rest ih =>
    obtain ⟨k1, v1⟩ := e
    by_cases h : k1 = k
    · subst h
      have : ¬k1 = k2 := fun hh => hne (hh.symm)
      simp [qinsert, qfind, this]
    · simp [qinsert, qfind, h, ih]

/-! ## Helper lemmas: the field deserializers -/

theorem stringDeserialize_ok {w : WireValue} {s : String}
    (h : stringDeserialize w = .ok s) : w = .str s := by
  cases w <;> simp [stringDeserialize] at h
  rw [h]

theorem snowflake_deserialize_ok {w : WireValue} {n : Nat}
    (h : snowflake_deserialize w = .ok n) :
    ∃ s, w = .str s ∧ parseU64? s.data = some n := by
  cases w with
  | str s =>
    refine ⟨s, rfl, ?_⟩
    unfold snowflake_deserialize stringDeserialize at h
    cases hp : parseU64? s.data with
    | some m => simp only [hp] at h; cases h; rfl
    | none => simp only [hp] at h; cases h
  | bool b => simp [snowflake_deserialize, stringDeserialize] at h
  | num n2 => simp [snowflake_deserialize, stringDeserialize] at h
  | null => simp [snowflake_deserialize, stringDeserialize] at h

theorem snowflake_deserialize_str_some {s : String} {n : Nat}
    (hp : parseU64? s.data = some n) :
    snowflake_deserialize (.str s) = .ok n := by
  simp [snowflake_deserialize, stringDeserialize, hp]

theorem snowflake_deserialize_str_none {s : String}
    (hp : parseU64? s.data = none) :
    snowflake_deserialize (.str s) = .error .InvalidId := by
  simp [snowflake_deserialize, stringDeserialize, hp]

theorem deserialize_is_test_ok {w : WireValue} {b : Bool}
    (h : deserialize_is_test w = .ok b) :
    ∃ s, w = .str s ∧ b = (s == "test") := by
  cases w with
  | str s =>
    refine ⟨s, rfl, ?_⟩
    simp [deserialize_is_test, stringDeserialize, Except.map] at h
    exact h.symm
  | bool b2 => simp [deserialize_is_test, stringDeserialize, Except.map] at h
  | num n2 => simp [deserialize_is_test, stringDeserialize, Except.map] at h
  | null => simp [deserialize_is_test, stringDeserialize, Except.map] at h

theorem boolDeserialize_ok {w : WireValue} {b : Bool}
    (h : boolDeserialize w = .ok b) : w = .bool b := by
  cases w <;> simp [boolDeserialize] at h
  rw [h]

/-- The value `deserialize_query_string` always succeeds with. -/
def queryResult (w : WireValue) : QMap :=
  match w with
  | .str s => parseQueryString s
  | _ => []

theorem deserialize_query_string_eq (w : WireValue) :
    deserialize_query_string w = .ok (queryResult w) := by
  cases w <;> rfl

-- Sanity checks of the whole decoder on concrete payloads.
example :
    decodeVote [("bot", .str "123"), ("user", .str "456"), ("type", .str "test")] =
      .ok ⟨123, 456, true, false, []⟩ := rfl
example :
    decodeVote [("guild", .str "9"), ("user", .str "8"), ("type", .str "x"),
        ("isWeekend", .bool true), ("query", .str "a=1")] =
      .ok ⟨9, 8, false, true, [("a", "1")]⟩ := rfl
example :
    decodeVote [("bot", .str "abc"), ("user", .str "456"), ("type", .str "test")] =
      .error .InvalidId := rfl
example :
    decodeVote [("type", .bool true), ("user", .str "2"), ("bot", .str "abc")] =
      .error .MalformedPayload := rfl

/-! ## Helper lemmas: the `visit_map` state machine -/

theorem procEntry_ok_receiver {st st1 : DecState} {e : String × WireValue}
    (hk : classify e.1 = .receiver) (h : procEntry st e = .ok st1) :
    st.receiver = none ∧ ∃ n, snowflake_deserialize e.2 = .ok n ∧
      st1 = { st with receiver := some n } := by
  unfold procEntry at h
  rw [hk] at h
  simp only [procField] at h
  cases hr : st.receiver with
  | some x => simp only [hr] at h; cases h
  | none =>
    simp only [hr] at h
    cases hs : snowflake_deserialize e.2 with
    | error err => simp only [hs] at h; cases h
    | ok n =>
      simp only [hs] at h
      cases h
      exact ⟨rfl, n, rfl, rfl⟩

theorem procEntry_ok_voter {st st1 : DecState} {e : String × WireValue}
    (hk : classify e.1 = .voter) (h : procEntry st e = .ok st1) :
    st.voter = none ∧ ∃ n, snowflake_deserialize e.2 = .ok n ∧
      st1 = { st with voter := some n } := by
  unfold procEntry at h
  rw [hk] at h
  simp only [procField] at h
  cases hr : st.voter with
  | some x => simp only [hr] at h; cases h
  | none =>
    simp only [hr] at h
    cases hs : snowflake_deserialize e.2 with
    | error err => simp only [hs] at h; cases h
    | ok n =>
      simp only [hs] at h
      cases h
      exact ⟨rfl, n, rfl, rfl⟩

theorem procEntry_ok_ftype {st st1 : DecState} {e : String × WireValue}
    (hk : classify e.1 = .ftype) (h : procEntry st e = .ok st1) :
    st.isTest = none ∧ ∃ b, deserialize_is_test e.2 = .ok b ∧
      st1 = { st with isTest := some b } := by
  unfold procEntry at h
  rw [hk] at h
  simp only [procField] at h
  cases hr : st.isTest with
  | some x => simp only [hr] at h; cases h
  | none =>
    simp only [hr] at h
    cases hs : deserialize_is_test e.2 with
    | error err => simp only [hs] at h; cases h
    | ok b =>
      simp only [hs] at h
      cases h
      exact ⟨rfl, b, rfl, rfl⟩

theorem procEntry_ok_weekend {st st1 : DecState} {e : String × WireValue}
    (hk : classify e.1 = .weekend) (h : procEntry st e = .ok st1) :
    st.isWeekend = none ∧ ∃ b, boolDeserialize e.2 = .ok b ∧
      st1 = { st with isWeekend := some b } := by
  unfold procEntry at h
  rw [hk] at h
  simp only [procField] at h
  cases hr : st.isWeekend with
  | some x => simp only [hr] at h; cases h
  | none =>
    simp only [hr] at h
    cases hs : boolDeserialize e.2 with
    | error err => simp only [hs] at h; cases h
    | ok b =>
      simp only [hs] at h
      cases h
      exact ⟨rfl, b, rfl, rfl⟩

theorem procEntry_ok_fquery {st st1 : DecState} {e : String × WireValue}
    (hk : classify e.1 = .fquery) (h : procEntry st e = .ok st1) :
    st.query = none ∧ st1 = { st with query := some (queryResult e.2) } := by
  unfold procEntry at h
  rw [hk] at h
  simp only [procField] at h
  cases hr : st.query with
  | some x => simp only [hr] at h; cases h
  | none =>
    simp only [hr, deserialize_query_string_eq] at h
    cases h
    exact ⟨rfl, rfl⟩

theorem procEntry_ok_unknown {st st1 : DecState} {e : String × WireValue}
    (hk : classify e.1 = .unknown) (h : procEntry st e = .ok st1) :
    st1 = st := by
  unfold procEntry at h
  rw [hk] at h
  simp only [procField] at h
  cases h
  rfl

/-- Once a field of the loop state is set, every later successful step
keeps its value. -/
theorem procEntry_mono {st st1 : DecState} {e : String × WireValue}
    (h : procEntry st e = .ok st1) :
    (∀ n, st.receiver = some n → st1.receiver = some n) ∧
    (∀ n, st.voter = some n → st1.voter = some n) ∧
    (∀ b, st.isTest = some b → st1.isTest = some b) ∧
    (∀ b, st.isWeekend = some b → st1.isWeekend = some b) ∧
    (∀ m, st.query = some m → st1.query = some m) := by
  cases hk : classify e.1
  case receiver =>
    obtain ⟨hnone, n, _, rfl⟩ := procEntry_ok_receiver hk h
    refine ⟨?_, ?_, ?_, ?_, ?_⟩ <;> intro x hx <;> simp_all
  case voter =>
    obtain ⟨hnone, n, _, rfl⟩ := procEntry_ok_voter hk h
    refine ⟨?_, ?_, ?_, ?_, ?_⟩ <;> intro x hx <;> simp_all
  case ftype =>
    obtain ⟨hnone, b, _, rfl⟩ := procEntry_ok_ftype hk h
    refine ⟨?_, ?_, ?_, ?_, ?_⟩ <;> intro x hx <;> simp_all
  case weekend =>
    obtain ⟨hnone, b, _, rfl⟩ := procEntry_ok_weekend hk h
    refine ⟨?_, ?_, ?_, ?_, ?_⟩ <;> intro x hx <;> simp_all
  case fquery =>
    obtain ⟨hnone, rfl⟩ := procEntry_ok_fquery hk h
    refine ⟨?_, ?_, ?_, ?_, ?_⟩ <;> intro x hx <;> simp_all
  case unknown =>
    obtain rfl := procEntry_ok_unknown hk h
    exact ⟨fun _ hx => hx, fun _ hx => hx, fun _ hx => hx, fun _ hx => hx, fun _ hx => hx⟩

theorem runEntries_ok_cons {st st2 : DecState} {e : String × WireValue}
    {l : List (String × WireValue)} (h : runEntries st (e :: l) = .ok st2) :
    ∃ st1, procEntry st e = .ok st1 ∧ runEntries st1 l = .ok st2 := by
  unfold runEntries at h
  cases hp : procEntry st e with
  | ok st1 => simp only [hp] at h; exact ⟨st1, rfl, h⟩
  | error err => simp only [hp] at h; cases h

theorem runEntries_mono {l : List (String × WireValue)} :
    ∀ {st st2 : DecState}, runEntries st l = .ok st2 →
    (∀ n, st.receiver = some n → st2.receiver = some n) ∧
    (∀ n, st.voter = some n → st2.voter = some n) ∧
    (∀ b, st.isTest = some b → st2.isTest = some b) ∧
    (∀ b, st.isWeekend = some b → st2.isWeekend = some b) ∧
    (∀ m, st.query = some m → st2.query = some m) := by
  induction l with
  | nil =>
    intro st st2 h
    cases h
    exact ⟨fun _ hx => hx, fun _ hx => hx, fun _ hx => hx, fun _ hx => hx, fun _ hx => hx⟩
  | cons e rest ih =>
    intro st st2 h
    obtain ⟨st1, h1, h2⟩ := runEntries_ok_cons h
    have m1 := procEntry_mono h1
    have m2 := ih h2
    exact ⟨fun n hx => m2.1 n (m1.1 n hx),
           fun n hx => m2.2.1 n (m1.2.1 n hx),
           fun b hx => m2.2.2.1 b (m1.2.2.1 b hx),
           fun b hx => m2.2.2.2.1 b (m1.2.2.2.1 b hx),
           fun m hx => m2.2.2.2.2 m (m1.2.2.2.2 m hx)⟩

/-- A successfully processed entry classified as the receiver field fixes
the final receiver value to the parse of its string. -/
theorem runEntries_mem_receiver {l : List (String × WireValue)} :
    ∀ {st st2 : DecState}, runEntries st l = .ok st2 →
    ∀ {k : String} {w : WireValue}, (k, w) ∈ l → classify k = .receiver →
    ∃ s n, w = .str s ∧ parseU64? s.data = some n ∧ st2.receiver = some n := by
  induction l with
  | nil => intro st st2 _ k w hm; cases hm
  | cons e rest ih =>
    intro st st2 h k w hm hk
    obtain ⟨st1, h1, h2⟩ := runEntries_ok_cons h
    rcases List.mem_cons.mp hm with he | hm2
    · obtain ⟨hnone, n, hdec, rfl⟩ := procEntry_ok_receiver (he ▸ hk) h1
      obtain ⟨s, hws, hp⟩ := snowflake_deserialize_ok hdec
      refine ⟨s, n, by rw [← he] at hws; exact hws, hp, ?_⟩
      exact (runEntries_mono h2).1 n (by simp)
    · exact ih h2 hm2 hk

theorem runEntries_mem_ftype {l : List (String × WireValue)} :
    ∀ {st st2 : DecState}, runEntries st l = .ok st2 →
    ∀ {k : String} {w : WireValue}, (k, w) ∈ l → classify k = .ftype →
    ∃ s, w = .str s ∧ st2.isTest = some (s == "test") := by
  induction l with
  | nil => intro st st2 _ k w hm; cases hm
  | cons e rest ih =>
    intro st st2 h k w hm hk
    obtain ⟨st1, h1, h2⟩ := runEntries_ok_cons h
    rcases List.mem_cons.mp hm with he | hm2
    · obtain ⟨hnone, b, hdec, rfl⟩ := procEntry_ok_ftype (he ▸ hk) h1
      obtain ⟨s, hws, hb⟩ := deserialize_is_test_ok hdec
      refine ⟨s, by rw [← he] at hws; exact hws, ?_⟩
      subst hb
      exact (runEntries_mono h2).2.2.1 _ (by simp)
    · exact ih h2 hm2 hk

theorem runEntries_mem_fquery {l : List (String × WireValue)} :
    ∀ {st st2 : DecState}, runEntries st l = .ok st2 →
    ∀ {k : String} {w : WireValue}, (k, w) ∈ l → classify k = .fquery →
    st2.query = some (queryResult w) := by
  induction l with
  | nil => intro st st2 _ k w hm; cases hm
  | cons e rest ih =>
    intro st st2 h k w hm hk
    obtain ⟨st1, h1, h2⟩ := runEntries_ok_cons h
    rcases List.mem_cons.mp hm with he | hm2
    · obtain ⟨hnone, rfl⟩ := procEntry_ok_fquery (he ▸ hk) h1
      have := (runEntries_mono h2).2.2.2.2 (queryResult e.2) (by simp)
      rw [← he] at this
      exact this
    · exact ih h2 hm2 hk

/-- A successful step on an entry not classified as the weekend field
leaves `isWeekend` unchanged. -/
theorem procEntry_isWeekend_eq {st st1 : DecState} {e : String × WireValue}
    (h : procEntry st e = .ok st1) (hk : classify e.1 ≠ .weekend) :
    st1.isWeekend = st.isWeekend := by
  cases hkind : classify e.1
  case receiver => obtain ⟨_, n, _, rfl⟩ := procEntry_ok_receiver hkind h; rfl
  case voter => obtain ⟨_, n, _, rfl⟩ := procEntry_ok_voter hkind h; rfl
  case ftype => obtain ⟨_, b, _, rfl⟩ := procEntry_ok_ftype hkind h; rfl
  case weekend => exact absurd hkind hk
  case fquery => obtain ⟨_, rfl⟩ := procEntry_ok_fquery hkind h; rfl
  case unknown => obtain rfl := procEntry_ok_unknown hkind h; rfl

theorem procEntry_query_eq {st st1 : DecState} {e : String × WireValue}
    (h : procEntry st e = .ok st1) (hk : classify e.1 ≠ .fquery) :
    st1.query = st.query := by
  cases hkind : classify e.1
  case receiver => obtain ⟨_, n, _, rfl⟩ := procEntry_ok_receiver hkind h; rfl
  case voter => obtain ⟨_, n, _, rfl⟩ := procEntry_ok_voter hkind h; rfl
  case ftype => obtain ⟨_, b, _, rfl⟩ := procEntry_ok_ftype hkind h; rfl
  case weekend => obtain ⟨_, b, _, rfl⟩ := procEntry_ok_weekend hkind h; rfl
  case fquery => exact absurd hkind hk
  case unknown => obtain rfl := procEntry_ok_unknown hkind h; rfl

theorem runEntries_no_weekend {l : List (String × WireValue)} :
    ∀ {st st2 : DecState}, runEntries st l = .ok st2 →
    (∀ e ∈ l, classify e.1 ≠ FieldKind.weekend) → st2.isWeekend = st.isWeekend := by
  induction l with
  | nil => intro st st2 h _; cases h; rfl
  | cons e rest ih =>
    intro st st2 h hall
    obtain ⟨st1, h1, h2⟩ := runEntries_ok_cons h
    have hstep := procEntry_isWeekend_eq h1 (hall e (List.mem_cons_self e rest))
    have htail := ih h2 (fun e2 hm => hall e2 (List.mem_cons_of_mem e hm))
    rw [htail, hstep]

theorem runEntries_no_query {l : List (String × WireValue)} :
    ∀ {st st2 : DecState}, runEntries st l = .ok st2 →
    (∀ e ∈ l, classify e.1 ≠ FieldKind.fquery) → st2.query = st.query := by
  induction l with
  | nil => intro st st2 h _; cases h; rfl
  | cons e rest ih =>
    intro st st2 h hall
    obtain ⟨st1, h1, h2⟩ := runEntries_ok_cons h
    have hstep := procEntry_query_eq h1 (hall e (List.mem_cons_self e rest))
    have htail := ih h2 (fun e2 hm => hall e2 (List.mem_cons_of_mem e hm))
    rw [htail, hstep]

/-- An ID entry whose string does not parse makes the step fail, whatever
the state: a duplicate-field error when the field was already set, the
`InvalidId` parse failure otherwise. -/
theorem procEntry_bad_id (st : DecState) {k : String} {s : String}
    (hk : classify k = FieldKind.receiver ∨ classify k = FieldKind.voter)
    (hp : parseU64? s.data = none) :
    ∃ er, procEntry st (k, WireValue.str s) = .error er := by
  have hsnow := snowflake_deserialize_str_none hp
  rcases hk with hk | hk
  · unfold procEntry
    rw [hk]
    simp only [procField]
    cases hr : st.receiver with
    | some x => exact ⟨.MalformedPayload, rfl⟩
    | none => exact ⟨.InvalidId, by simp only [hsnow]⟩
  · unfold procEntry
    rw [hk]
    simp only [procField]
    cases hr : st.voter with
    | some x => exact ⟨.MalformedPayload, rfl⟩
    | none => exact ⟨.InvalidId, by simp only [hsnow]⟩

theorem runEntries_bad_id {k : String} {s : String}
    (hk : classify k = FieldKind.receiver ∨ classify k = FieldKind.voter)
    (hp : parseU64? s.data = none) :
    ∀ {l : List (String × WireValue)} (st : DecState),
      (k, WireValue.str s) ∈ l → ∃ er, runEntries st l = .error er := by
  intro l
  induction l with
  | nil => intro st hm; cases hm
  | cons e rest ih =>
    intro st hm
    rcases List.mem_cons.mp hm with he | hm2
    · obtain ⟨er, her⟩ := procEntry_bad_id st hk hp
      rw [he] at her
      exact ⟨er, by unfold runEntries; simp only [her]⟩
    · cases hpe : procEntry st e with
      | error er => exact ⟨er, by unfold runEntries; simp only [hpe]⟩
      | ok st1 =>
        obtain ⟨er, her⟩ := ih st1 hm2
        exact ⟨er, by unfold runEntries; simp only [hpe, her]⟩

theorem finishDecode_ok {st : DecState} {v : Vote} (h : finishDecode st = .ok v) :
    st.receiver = some v.receiver_id ∧ st.voter = some v.voter_id ∧
    st.isTest = some v.is_test ∧ v.is_weekend = st.isWeekend.getD false ∧
    v.query = st.query.getD [] := by
  unfold finishDecode at h
  cases hr : st.receiver with
  | none => simp only [hr] at h; cases h
  | some r =>
    cases hu : st.voter with
    | none => simp only [hr, hu] at h; cases h
    | some u =>
      cases ht : st.isTest with
      | none => simp only [hr, hu, ht] at h; cases h
      | some t =>
        simp only [hr, hu, ht] at h
        cases h
        exact ⟨rfl, rfl, rfl, rfl, rfl⟩

theorem decodeVote_ok {p : List (String × WireValue)} {v : Vote}
    (h : decodeVote p = .ok v) :
    ∃ st, runEntries initState p = .ok st ∧ finishDecode st = .ok v := by
  unfold decodeVote at h
  cases hr : runEntries initState p with
  | ok st => simp only [hr] at h; exact ⟨st, rfl, h⟩
  | error e => simp only [hr] at h; cases h

/-! ## Claim theorems -/

/-- Claim C1 counterexample: the claim says the value of a pair is
everything after the first `=`, so `a=b=c` would map `a` to `b=c`; the
code takes the first two `=`-separated components, so `a` maps to `b`. -/
theorem C1_counterexample :
    parseQueryString "a=b=c" = [("a", "b")] ∧
    ((qfind "a" (parseQueryString "a=b=c") = some "b=c") ↔ False) := by
  refine ⟨rfl, iff_false_intro ?_⟩
  intro h
  rw [show parseQueryString "a=b=c" = [("a", "b")] from rfl] at h
  simp [qfind] at h

/-- Claim C1 (amended): the sub-parser splits on `&`; a candidate with no
`=` is silently skipped; for a candidate of the form `k=v` or `k=v=rest`
the key is `k` and the value is `v`, the segment between the first and the
second `=` (not everything after the first `=`); the sub-parser itself
never fails the overall decode; `a=1&bogus&c=3` decodes to the mapping
with `a` bound to `1` and `c` bound to `3`. -/
theorem C1_theorem :
    (∀ (m : QMap) (pair : List Char), '=' ∉ pair → processCandidate m pair = m) ∧
    (∀ (m : QMap) (k v : List Char), '=' ∉ k → '=' ∉ v →
      processCandidate m (k ++ '=' :: v) =
        (match urldecode? v with
         | some v2 => qinsert (String.mk k) (String.mk v2) m
         | none => m)) ∧
    (∀ (m : QMap) (k v rest : List Char), '=' ∉ k → '=' ∉ v →
      processCandidate m (k ++ '=' :: (v ++ '=' :: rest)) =
        (match urldecode? v with
         | some v2 => qinsert (String.mk k) (String.mk v2) m
         | none => m)) ∧
    (∀ w : WireValue, ∃ q, deserialize_query_string w = .ok q) ∧
    parseQueryString "a=1&bogus&c=3" = [("a", "1"), ("c", "3")] := by
  refine ⟨?_, ?_, ?_, ?_, by decide⟩
  · intro m pair hnm
    unfold processCandidate
    rw [splitOnChar_eq_single hnm]
  · intro m k v hk hv
    unfold processCandidate
    rw [splitOnChar_append v hk, splitOnChar_eq_single hv]
  · intro m k v rest hk hv
    unfold processCandidate
    rw [splitOnChar_append (v ++ '=' :: rest) hk, splitOnChar_append rest hv]
  · intro w
    exact ⟨queryResult w, deserialize_query_string_eq w⟩

/-- Claim C1 witness: the amended theorem applied to the concrete
candidates `x=y=z` (value `y`, the part between the two `=`) and `bog`
(no `=`, skipped). -/
theorem C1_witness :
    processCandidate [] (['x'] ++ '=' :: (['y'] ++ '=' :: ['z'])) = [("x", "y")] ∧
    processCandidate [] ['b', 'o', 'g'] = [] := by
  constructor
  · rw [C1_theorem.2.2.1 [] ['x'] ['y'] ['z'] (by decide) (by decide)]
    decide
  · rw [C1_theorem.1 [] ['b', 'o', 'g'] (by decide)]

/-- Claim C2: `authenticate` returns the wrapped vote exactly when the
presented credential equals the stored secret under exact string
equality, and `None` for every other credential; any returned vote is the
wrapped one. -/
theorem C2_theorem (iv : IncomingVote) (p : String) :
    (iv.authenticate p = some iv.vote ↔ iv.authorization = p) ∧
    (iv.authorization ≠ p → iv.authenticate p = none) ∧
    (∀ v, iv.authenticate p = some v → v = iv.vote ∧ iv.authorization = p) := by
  unfold IncomingVote.authenticate
  by_cases h : iv.authorization = p
  · simp [h]
  · simp [h]

/-- Claim C2 witness: with secret `s3cret`, the exact credential
authenticates, while credentials differing only in letter case or by
trailing whitespace are rejected. -/
theorem C2_witness :
    (IncomingVote.mk "s3cret" ⟨101, 202, false, false, []⟩).authenticate "s3cret" =
      some ⟨101, 202, false, false, []⟩ ∧
    (IncomingVote.mk "s3cret" ⟨101, 202, false, false, []⟩).authenticate "S3cret" = none ∧
    (IncomingVote.mk "s3cret" ⟨101, 202, false, false, []⟩).authenticate "s3cret " = none := by
  have h1 := C2_theorem (IncomingVote.mk "s3cret" ⟨101, 202, false, false, []⟩) "s3cret"
  have h2 := C2_theorem (IncomingVote.mk "s3cret" ⟨101, 202, false, false, []⟩) "S3cret"
  have h3 := C2_theorem (IncomingVote.mk "s3cret" ⟨101, 202, false, false, []⟩) "s3cret "
  exact ⟨h1.1.mpr rfl, h2.2.1 (by decide), h3.2.1 (by decide)⟩

/-- Claim C3 counterexample: a payload whose `bot` field is the
unparseable string `abc` but whose `type` field is a boolean fails with
`MalformedPayload` (the `type` entry is processed first), not with
`InvalidId` as the claim states for every such payload. -/
theorem C3_counterexample :
    decodeVote [("type", .bool true), ("user", .str "2"), ("bot", .str "abc")] =
      .error .MalformedPayload ∧
    ((decodeVote [("type", .bool true), ("user", .str "2"), ("bot", .str "abc")] =
      .error .InvalidId) ↔ False) := by
  have h1 : decodeVote [("type", .bool true), ("user", .str "2"), ("bot", .str "abc")] =
      .error .MalformedPayload := rfl
  refine ⟨h1, iff_false_intro ?_⟩
  rw [h1]
  intro h
  cases h

/-- Claim C3 (amended): a payload whose receiver-ID or voter-ID field is
present with a string value not parseable as an unsigned 64-bit integer
never decodes to a `Vote` — the whole construction fails atomically; and
when that ID entry is the first one processed (in particular when nothing
before it fails), the error is `InvalidId`.  If an entry processed earlier
itself fails to decode, the overall error can be `MalformedPayload`
instead. -/
theorem C3_theorem :
    (∀ (payload : List (String × WireValue)) (k : String) (s : String),
      (k, WireValue.str s) ∈ payload →
      (classify k = FieldKind.receiver ∨ classify k = FieldKind.voter) →
      parseU64? s.data = none →
      ∃ er, decodeVote payload = .error er) ∧
    (∀ (s : String) (rest : List (String × WireValue)), parseU64? s.data = none →
      decodeVote (("bot", WireValue.str s) :: rest) = .error .InvalidId) ∧
    (∀ (s : String) (rest : List (String × WireValue)), parseU64? s.data = none →
      decodeVote (("user", WireValue.str s) :: rest) = .error .InvalidId) := by
  refine ⟨?_, ?_, ?_⟩
  · intro payload k s hm hk hp
    obtain ⟨er, her⟩ := runEntries_bad_id hk hp initState hm
    exact ⟨er, by unfold decodeVote; simp only [her]⟩
  · intro s rest hp
    have hsnow := snowflake_deserialize_str_none hp
    have hc : classify "bot" = FieldKind.receiver := rfl
    unfold decodeVote runEntries procEntry
    rw [hc]
    simp only [procField, initState, hsnow]
  · intro s rest hp
    have hsnow := snowflake_deserialize_str_none hp
    have hc : classify "user" = FieldKind.voter := rfl
    unfold decodeVote runEntries procEntry
    rw [hc]
    simp only [procField, initState, hsnow]

/-- Claim C3 witness: the amended theorem applied to the payload whose
`bot` field is the non-numeric string `abc`, yielding `InvalidId`. -/
theorem C3_witness :
    decodeVote [("bot", .str "abc"), ("user", .str "1"), ("type", .str "t")] =
      .error .InvalidId :=
  C3_theorem.2.1 "abc" [("user", .str "1"), ("type", .str "t")] (by decide)

/-- Claim C4: the decoded `is_test` flag is true exactly when the wire
`type` field is the literal string `test`; any other string yields false
and is never an error. -/
theorem C4_theorem :
    (∀ s : String, deserialize_is_test (.str s) = .ok (s == "test")) ∧
    (∀ (payload : List (String × WireValue)) (v : Vote) (w : WireValue),
      decodeVote payload = .ok v → ("type", w) ∈ payload →
      ∃ s, w = .str s ∧ (v.is_test = true ↔ s = "test")) := by
  constructor
  · intro s
    rfl
  · intro payload v w h hm
    obtain ⟨st, hrun, hfin⟩ := decodeVote_ok h
    obtain ⟨s, hws, hst⟩ := runEntries_mem_ftype hrun hm rfl
    obtain ⟨_, _, ht, _, _⟩ := finishDecode_ok hfin
    rw [hst] at ht
    refine ⟨s, hws, ?_⟩
    rw [← Option.some_inj.mp ht]
    simp

/-- Claim C4 witness: the theorem applied to `type` value the empty
string (decodes to false) and to a full payload whose `type` is `test`
(decodes to true). -/
theorem C4_witness :
    deserialize_is_test (.str "") = .ok false ∧
    ((⟨1, 2, true, false, []⟩ : Vote).is_test = true ↔ "test" = "test") := by
  constructor
  · have h := C4_theorem.1 ""
    simpa using h
  · obtain ⟨s, hs, hiff⟩ := C4_theorem.2
      [("bot", .str "1"), ("user", .str "2"), ("type", .str "test")]
      ⟨1, 2, true, false, []⟩ (.str "test") rfl (by simp)
    cases hs
    exact hiff

/-- Claim C5: a candidate pair whose value fails percent-decoding is
silently dropped (the map is unchanged) without failing the decode, a
pair whose value decodes is inserted with the decoded value, and
`a=1&b=hello%20world` decodes to the mapping with `a` bound to `1` and
`b` bound to `hello world`. -/
theorem C5_theorem :
    (∀ (m : QMap) (pair k v : List Char) (rest : List (List Char)),
      splitOnChar '=' pair = k :: v :: rest → urldecode? v = none →
      processCandidate m pair = m) ∧
    (∀ (m : QMap) (pair k v : List Char) (rest : List (List Char)) (v2 : List Char),
      splitOnChar '=' pair = k :: v :: rest → urldecode? v = some v2 →
      processCandidate m pair = qinsert (String.mk k) (String.mk v2) m) ∧
    parseQueryString "a=1&b=hello%20world" = [("a", "1"), ("b", "hello world")] := by
  refine ⟨?_, ?_, by decide⟩
  · intro m pair k v rest hsplit hdec
    simp only [processCandidate, hsplit, hdec]
  · intro m pair k v rest v2 hsplit hdec
    simp only [processCandidate, hsplit, hdec]

/-- Claim C5 witness: the theorem applied to the candidate `b=%FF`
(value is invalid UTF-8 after percent-decoding, pair dropped) and to the
candidate `a=1` (value decodes, pair inserted). -/
theorem C5_witness :
    processCandidate [] ['b', '=', '%', 'F', 'F'] = [] ∧
    processCandidate [] ['a', '=', '1'] = [("a", "1")] := by
  constructor
  · exact C5_theorem.1 [] ['b', '=', '%', 'F', 'F'] ['b'] ['%', 'F', 'F'] []
      (by decide) (by decide)
  · rw [C5_theorem.2.1 [] ['a', '=', '1'] ['a'] ['1'] [] ['1'] (by decide) (by decide)]
    decide

/-- Claim C6: inserting a key that is already bound overwrites its value
and touches no other key, so later duplicate keys win; `x=1&x=2` decodes
to the mapping with `x` bound to `2`. -/
theorem C6_theorem :
    (∀ (m : QMap) (k v : String), qfind k (qinsert k v m) = some v) ∧
    (∀ (m : QMap) (k k2 v : String), k2 ≠ k → qfind k2 (qinsert k v m) = qfind k2 m) ∧
    parseQueryString "x=1&x=2" = [("x", "2")] := by
  refine ⟨?_, ?_, by decide⟩
  · intro m k v
    exact qfind_qinsert_self k v m
  · intro m k k2 v h
    exact qfind_qinsert_other v h m

/-- Claim C6 witness: the theorem applied to a map already binding `x`
(overwritten) and to a map binding only the unrelated key `y` (left
alone). -/
theorem C6_witness :
    qfind "x" (qinsert "x" "2" [("x", "1")]) = some "2" ∧
    qfind "y" (qinsert "x" "2" [("y", "7")]) = qfind "y" [("y", "7")] :=
  ⟨C6_theorem.1 [("x", "1")] "x" "2",
   C6_theorem.2.1 [("y", "7")] "x" "y" "2" (by decide)⟩

/-- Claim C7: whenever decoding succeeds, `receiver_id` is the parsed
numeric value of the `bot` or `guild` entry of the payload — both wire
names feed the same attribute — and a payload carrying its receiver ID
under either alias (with `user` and `type` well-formed) decodes
successfully. -/
theorem C7_theorem :
    (∀ (payload : List (String × WireValue)) (v : Vote) (k : String) (w : WireValue),
      decodeVote payload = .ok v → (k, w) ∈ payload → (k = "bot" ∨ k = "guild") →
      ∃ s n, w = .str s ∧ parseU64? s.data = some n ∧ v.receiver_id = n) ∧
    (∀ (k : String) (s u t : String) (n m : Nat), (k = "bot" ∨ k = "guild") →
      parseU64? s.data = some n → parseU64? u.data = some m →
      decodeVote [(k, .str s), ("user", .str u), ("type", .str t)] =
        .ok ⟨n, m, t == "test", false, []⟩) := by
  constructor
  · intro payload v k w h hm hk
    obtain ⟨st, hrun, hfin⟩ := decodeVote_ok h
    have hck : classify k = FieldKind.receiver := by rcases hk with rfl | rfl <;> rfl
    obtain ⟨s, n, hws, hp, hst⟩ := runEntries_mem_receiver hrun hm hck
    obtain ⟨hr, _, _, _, _⟩ := finishDecode_ok hfin
    rw [hst] at hr
    exact ⟨s, n, hws, hp, (Option.some_inj.mp hr).symm⟩
  · intro k s u t n m hk hps hpu
    have h1 := snowflake_deserialize_str_some hps
    have h2 := snowflake_deserialize_str_some hpu
    rcases hk with rfl | rfl <;>
      simp [decodeVote, runEntries, procEntry, procField, classify, initState,
        finishDecode, h1, h2, deserialize_is_test, stringDeserialize, Except.map]

/-- Claim C7 witness: the theorem applied to a payload using the `guild`
alias with numeric string `123`: decoding succeeds, and the receiver ID
extracted by the general part is that numeric value. -/
theorem C7_witness :
    decodeVote [("guild", .str "123"), ("user", .str "456"), ("type", .str "x")] =
      .ok ⟨123, 456, false, false, []⟩ ∧
    (∃ s n, WireValue.str "123" = WireValue.str s ∧ parseU64? s.data = some n ∧
      (123 : Nat) = n) := by
  have h2 := C7_theorem.2 "guild" "123" "456" "x" 123 456 (Or.inr rfl)
    (by decide) (by decide)
  refine ⟨by simpa using h2, ?_⟩
  have h1 := C7_theorem.1 [("guild", .str "123"), ("user", .str "456"), ("type", .str "x")]
    ⟨123, 456, false, false, []⟩ "guild" (.str "123") (by simpa using h2)
    (by simp) (Or.inr rfl)
  simpa using h1

/-- A key classified to the weekend field is exactly `isWeekend`. -/
theorem classify_eq_weekend {k : String} (h : classify k = FieldKind.weekend) :
    k = "isWeekend" := by
  unfold classify at h
  split_ifs at h with h1 h2 h3 h4 h5
  all_goals first
    | exact absurd h (by decide)
    | assumption

/-- A key classified to the query field is exactly `query`. -/
theorem classify_eq_fquery {k : String} (h : classify k = FieldKind.fquery) :
    k = "query" := by
  unfold classify at h
  split_ifs at h with h1 h2 h3 h4 h5
  all_goals first
    | exact absurd h (by decide)
    | assumption

/-- Claim C8: optional fields default without error: a payload with no
`isWeekend` entry decodes with `is_weekend = false`, and one with no
`query` entry decodes with an empty query mapping. -/
theorem C8_theorem (payload : List (String × WireValue)) (v : Vote)
    (h : decodeVote payload = .ok v) :
    ((∀ w, ("isWeekend", w) ∉ payload) → v.is_weekend = false) ∧
    ((∀ w, ("query", w) ∉ payload) → v.query = []) := by
  obtain ⟨st, hrun, hfin⟩ := decodeVote_ok h
  obtain ⟨_, _, _, hw, hq⟩ := finishDecode_ok hfin
  constructor
  · intro habs
    have hnone : ∀ e ∈ payload, classify e.1 ≠ FieldKind.weekend := by
      intro e he hke
      obtain ⟨k1, w1⟩ := e
      have hk := classify_eq_weekend hke
      subst hk
      exact habs w1 he
    have hkeep := runEntries_no_weekend hrun hnone
    rw [hw, hkeep]
    rfl
  · intro habs
    have hnone : ∀ e ∈ payload, classify e.1 ≠ FieldKind.fquery := by
      intro e he hke
      obtain ⟨k1, w1⟩ := e
      have hk := classify_eq_fquery hke
      subst hk
      exact habs w1 he
    have hkeep := runEntries_no_query hrun hnone
    rw [hq, hkeep]
    rfl

/-- Claim C8 witness: the theorem applied to a minimal payload omitting
both `isWeekend` and `query`. -/
theorem C8_witness :
    (⟨7, 8, false, false, []⟩ : Vote).is_weekend = false ∧
    (⟨7, 8, false, false, []⟩ : Vote).query = [] := by
  have h := C8_theorem [("bot", .str "7"), ("user", .str "8"), ("type", .str "z")]
    ⟨7, 8, false, false, []⟩ rfl
  exact ⟨h.1 (by simp), h.2 (by simp)⟩

/-- Claim C9: the query-string deserializer never returns a decode error:
it always yields `Ok`, a non-string wire value yields the empty mapping,
a successfully decoded vote's query field is the deserializer's value for
the payload's `query` entry, and a whole payload whose `query` field has
the wrong wire type still decodes (with an empty mapping). -/
theorem C9_theorem :
    (∀ w : WireValue, ∃ q, deserialize_query_string w = .ok q) ∧
    (∀ w : WireValue, (∀ s, w ≠ .str s) → deserialize_query_string w = .ok []) ∧
    (∀ (payload : List (String × WireValue)) (v : Vote) (w : WireValue),
      decodeVote payload = .ok v → ("query", w) ∈ payload →
      v.query = queryResult w) ∧
    decodeVote
        [("bot", .str "1"), ("user", .str "2"), ("type", .str "x"), ("query", .bool true)] =
      .ok ⟨1, 2, false, false, []⟩ := by
  refine ⟨?_, ?_, ?_, rfl⟩
  · intro w
    exact ⟨queryResult w, deserialize_query_string_eq w⟩
  · intro w hns
    cases w with
    | str s => exact absurd rfl (hns s)
    | bool b => rfl
    | num n => rfl
    | null => rfl
  · intro payload v w h hm
    obtain ⟨st, hrun, hfin⟩ := decodeVote_ok h
    have hq := runEntries_mem_fquery hrun hm rfl
    obtain ⟨_, _, _, _, hqv⟩ := finishDecode_ok hfin
    rw [hqv, hq]
    rfl

/-- Claim C9 witness: the theorem applied to a boolean `query` value: the
sub-deserializer returns the empty mapping, and the vote decoded from a
payload whose `query` field is a boolean has an empty query mapping. -/
theorem C9_witness :
    deserialize_query_string (.bool true) = .ok [] ∧
    (⟨1, 2, false, false, []⟩ : Vote).query = queryResult (.bool true) := by
  constructor
  · exact C9_theorem.2.1 (.bool true) (fun s h => WireValue.noConfusion h)
  · exact C9_theorem.2.2.1
      [("bot", .str "1"), ("user", .str "2"), ("type", .str "x"), ("query", .bool true)]
      ⟨1, 2, false, false, []⟩ (.bool true) rfl (by simp)

/-- Claim C10: percent-decoding applies to values only, never keys: a
candidate `k=v` is inserted under the verbatim key `k` (whatever escapes
it contains) with the percent-decoded value; `a%20b=x%20y` decodes to the
mapping binding the still-encoded key `a%20b` to the decoded value `x y`,
and a key with an invalid escape such as `a%FFb` is stored verbatim
without any failure. -/
theorem C10_theorem :
    (∀ (m : QMap) (k v : List Char), '=' ∉ k → '=' ∉ v →
      processCandidate m (k ++ '=' :: v) =
        (match urldecode? v with
         | some v2 => qinsert (String.mk k) (String.mk v2) m
         | none => m)) ∧
    parseQueryString "a%20b=x%20y" = [("a%20b", "x y")] ∧
    parseQueryString "a%FFb=1" = [("a%FFb", "1")] := by
  refine ⟨?_, by decide, by decide⟩
  intro m k v hk hv
  unfold processCandidate
  rw [splitOnChar_append v hk, splitOnChar_eq_single hv]

/-- Claim C10 witness: the theorem applied to the candidate `a%20b=1`:
the key keeps its percent-escape, the value is decoded. -/
theorem C10_witness :
    processCandidate [] (['a', '%', '2', '0', 'b'] ++ '=' :: ['1']) = [("a%20b", "1")] := by
  rw [C10_theorem.1 [] ['a', '%', '2', '0', 'b'] ['1'] (by decide) (by decide)]
  decide

end Topgg
